import Mathlib

/-!
Verification of the slabmalloc slab allocator against its specification.

The crate's `lib.rs` supplies the layout constants, the `AllocationError`
type, and the `Allocator` trait signatures; the page, size-class and zone
modules (`pages.rs`, `sc.rs`, `zone.rs`) are declared there but their
bodies are not part of the source tree available here, so their behaviour
is modelled from the specification (each such definition carries a
`Modelled from the spec:` doc comment).

Machine addresses and sizes are modelled as `Nat`; bitmaps as `Nat`
bitmasks read through `Nat.testBit`; fallible operations return
`Except AllocationError`.
-/

/-- From lib.rs: how many bytes in the page are used by allocator meta-data. -/
def OBJECT_PAGE_METADATA_OVERHEAD : Nat := 80

/-- From lib.rs: how many bytes an `ObjectPage` is. -/
def OBJECT_PAGE_SIZE : Nat := 4096

/-- From lib.rs: how many bytes a `LargeObjectPage` is. -/
def LARGE_OBJECT_PAGE_SIZE : Nat := 2 * 1024 * 1024

/-- From lib.rs: error that can be returned for allocation and deallocation
requests.  `outOfMemory` mirrors `OutOfMemory`, `invalidLayout` mirrors
`InvalidLayout`; these are the only constructors, exactly as in the Rust
enum. -/
inductive AllocationError where
  | outOfMemory
  | invalidLayout
deriving DecidableEq

/-- A Rust `core::alloc::Layout`: a requested size and alignment. -/
structure Layout where
  size : Nat
  align : Nat
deriving DecidableEq

/-- The two page variants of the crate: `ObjectPage` (4 KiB) and
`LargeObjectPage` (2 MiB). -/
inductive PageVariant where
  | small
  | large
deriving DecidableEq

/-- The byte size of a page of the given variant. -/
def PageVariant.size : PageVariant → Nat
  | .small => OBJECT_PAGE_SIZE
  | .large => LARGE_OBJECT_PAGE_SIZE

/-- Modelled from the spec: the metadata header lives at a fixed positive
offset from the page base, namely `page_base + PAGE_SIZE - METADATA_OVERHEAD`
(spec section 6, Constants). -/
def headerOffset (v : PageVariant) : Nat :=
  v.size - OBJECT_PAGE_METADATA_OVERHEAD

/-- Modelled from the spec: byte size of the in-page metadata header, which
is absent from the available sources (`pages.rs`).  Spec section 3 describes
a cache-line-sized core of bitmaps (64 bytes) plus forward/backward list
linkage (two 8-byte words), within the 80-byte overhead budget. -/
def headerSize : Nat := 64 + 2 * 8

/-- Modelled from the spec: the page struct is a data region of
`PAGE_SIZE - METADATA_OVERHEAD` bytes followed by the trailing header that
fills the reserved overhead region, mirroring the Rust layout
`data: [u8; SIZE - OVERHEAD]` + header fields. -/
def pageStructSize (v : PageVariant) : Nat :=
  (v.size - OBJECT_PAGE_METADATA_OVERHEAD) + OBJECT_PAGE_METADATA_OVERHEAD

/-- Modelled from the spec: the in-page state of one `AllocablePage`.
`base` is the page's virtual base address, `slotSize` the size class it was
initialized for, and `occupied` the occupancy bitmap (bit `i` set means slot
`i` is allocated).  The companion usable-slot bitmap is precomputed from
`slotSize` at initialization and never mutated (spec section 4.1), so it is
modelled as the function `Page.usableBit` of `slotSize` it always equals. -/
structure Page where
  variant : PageVariant
  base : Nat
  slotSize : Nat
  occupied : Nat
deriving DecidableEq

/-- Bytes of a page available for object slots (everything before the
trailing header). -/
def Page.dataSize (p : Page) : Nat :=
  p.variant.size - OBJECT_PAGE_METADATA_OVERHEAD

/-- Number of potential slots covered by the bitmap: one bit per
`slotSize`-sized page-relative offset. -/
def Page.numSlots (p : Page) : Nat :=
  p.variant.size / p.slotSize

/-- Modelled from the spec: the usable-slot bitmap.  Bit `i` is usable iff
the whole slot lies inside the data region, i.e. does not overlap the
trailing header (spec section 3). -/
def Page.usableBit (p : Page) (i : Nat) : Bool :=
  decide ((i + 1) * p.slotSize ≤ p.dataSize)

/-- Modelled from the spec: `is_empty`, a predicate derived from the
occupancy bitmap on demand — no slot allocated. -/
def Page.isEmpty (p : Page) : Bool :=
  decide (p.occupied = 0)

/-- Modelled from the spec: `is_full`, a predicate derived from the
occupancy bitmap on demand — no usable slot free. -/
def Page.isFull (p : Page) : Bool :=
  (List.range p.numSlots).all fun i => !(p.usableBit i) || p.occupied.testBit i

/-- Modelled from the spec: the page's population (number of allocated
slots), derived from the occupancy bitmap on demand; the header stores no
redundant counter. -/
def Page.population (p : Page) : Nat :=
  ((Finset.range p.numSlots).filter fun i => p.occupied.testBit i = true).card

/-- Number of usable slots of the page, derived from the usable-slot
bitmap. -/
def Page.usableCount (p : Page) : Nat :=
  ((Finset.range p.numSlots).filter fun i => p.usableBit i = true).card

/-- Modelled from the spec: scan the occupancy bitmap for the first zero
bit that the usable-slot bitmap marks valid and whose byte offset satisfies
the requested alignment (spec section 4.1). -/
def Page.findSlot (p : Page) (align : Nat) : Option Nat :=
  (List.range p.numSlots).find? fun i =>
    p.usableBit i && !(p.occupied.testBit i) &&
      decide ((p.base + i * p.slotSize) % align = 0)

/-- Modelled from the spec: per-page allocate.  Pick the first free usable
aligned slot, set its bit, and return the absolute address; `none` only
when no such slot exists. -/
def Page.allocate (p : Page) (align : Nat) : Option (Nat × Page) :=
  (p.findSlot align).map fun i =>
    (p.base + i * p.slotSize, { p with occupied := p.occupied ||| (1 <<< i) })

/-- Modelled from the spec: per-page deallocate.  Derive the slot index as
`(ptr - page_base) / slot_size`; require the bit to be set (otherwise the
request is a double free and is reported as an error rather than silently
corrupting the bitmap); clear it. -/
def Page.deallocate (p : Page) (ptr : Nat) : Except AllocationError Page :=
  if p.occupied.testBit ((ptr - p.base) / p.slotSize) then
    .ok { p with occupied := p.occupied ^^^ (1 <<< ((ptr - p.base) / p.slotSize)) }
  else
    .error .invalidLayout

/-- C3: the layout constants are bit-exact — `PAGE_SIZE_SMALL = 4096`,
`PAGE_SIZE_LARGE = 2097152`, `METADATA_OVERHEAD = 80` — and the header of
every page variant lives at `page_base + PAGE_SIZE - METADATA_OVERHEAD`,
a consistent per-variant offset with `offset + METADATA_OVERHEAD = PAGE_SIZE`. -/
theorem layout_constants_bit_exact :
    OBJECT_PAGE_SIZE = 4096 ∧
    LARGE_OBJECT_PAGE_SIZE = 2097152 ∧
    OBJECT_PAGE_METADATA_OVERHEAD = 80 ∧
    headerOffset .small = 4096 - 80 ∧
    headerOffset .large = 2097152 - 80 ∧
    ∀ v : PageVariant, headerOffset v + OBJECT_PAGE_METADATA_OVERHEAD = v.size :=
  ⟨rfl, rfl, rfl, rfl, rfl, fun v => by cases v <;> rfl⟩

/-- C2: for both page variants, the in-page metadata header fits in the
`METADATA_OVERHEAD` (80-byte) budget, and the page struct (data region plus
trailing header region) is exactly `PAGE_SIZE` bytes. -/
theorem header_and_page_sizes :
    headerSize ≤ OBJECT_PAGE_METADATA_OVERHEAD ∧
    pageStructSize .small = OBJECT_PAGE_SIZE ∧
    pageStructSize .large = LARGE_OBJECT_PAGE_SIZE :=
  ⟨by decide, rfl, rfl⟩

/-- Every page variant has a power-of-two byte size. -/
theorem PageVariant.size_eq_two_pow (v : PageVariant) : ∃ k, v.size = 2 ^ k := by
  cases v
  · exact ⟨12, rfl⟩
  · exact ⟨21, rfl⟩

/-- Unpack a successful `Page.allocate` into its chosen slot index. -/
theorem Page.allocate_eq_some {p : Page} {align ptr : Nat} {p' : Page}
    (h : p.allocate align = some (ptr, p')) :
    ∃ i, p.findSlot align = some i ∧ ptr = p.base + i * p.slotSize ∧
      p' = { p with occupied := p.occupied ||| (1 <<< i) } := by
  unfold Page.allocate at h
  rcases Option.map_eq_some'.mp h with ⟨i, hi, hpair⟩
  simp only [Prod.mk.injEq] at hpair
  exact ⟨i, hi, hpair.1.symm, hpair.2.symm⟩

/-- The slot returned by the bitmap scan is usable, free, and satisfies the
requested alignment. -/
theorem Page.findSlot_spec {p : Page} {align i : Nat}
    (h : p.findSlot align = some i) :
    i < p.numSlots ∧ p.usableBit i = true ∧ p.occupied.testBit i = false ∧
      (p.base + i * p.slotSize) % align = 0 := by
  have hmem := List.mem_of_find?_eq_some h
  have hpred := List.find?_some h
  simp only [Bool.and_eq_true, Bool.not_eq_true', decide_eq_true_eq] at hpred
  exact ⟨List.mem_range.mp hmem, hpred.1.1, hpred.1.2, hpred.2⟩

/-- A usable slot lies entirely inside the data region, below the header. -/
theorem Page.usableBit_le {p : Page} {i : Nat} (h : p.usableBit i = true) :
    (i + 1) * p.slotSize ≤ p.dataSize := by
  exact decide_eq_true_eq.mp h

/-- The offset of an allocated slot is below the page size. -/
theorem Page.slot_offset_lt {p : Page} {i : Nat} (hs : 0 < p.slotSize)
    (h : p.usableBit i = true) : i * p.slotSize < p.variant.size := by
  have h1 : (i + 1) * p.slotSize ≤ p.dataSize := p.usableBit_le h
  have h2 : i * p.slotSize < (i + 1) * p.slotSize :=
    (Nat.mul_lt_mul_right hs).mpr (Nat.lt_succ_self i)
  have h3 : p.dataSize ≤ p.variant.size := Nat.sub_le _ _
  omega

/-- C1: for every object pointer `ptr` returned by a successful page
allocate on a `PAGE_SIZE`-aligned page, masking `ptr` with
`~(PAGE_SIZE-1)` (equivalently, subtracting `ptr & (PAGE_SIZE-1)`, or
`ptr mod PAGE_SIZE`) yields the base of the owning page; the metadata
header lies at the fixed positive offset `headerOffset` from that base;
and the slot index used by deallocation is recovered exactly as
`(ptr - page_base) / slot_size`. -/
theorem pointer_provenance (p : Page) (align ptr : Nat) (p' : Page)
    (hs : 0 < p.slotSize) (hb : p.variant.size ∣ p.base)
    (h : p.allocate align = some (ptr, p')) :
    ptr - (ptr &&& (p.variant.size - 1)) = p.base ∧
    ptr - ptr % p.variant.size = p.base ∧
    0 < headerOffset p.variant ∧
    ∃ i, p.findSlot align = some i ∧ ptr = p.base + i * p.slotSize ∧
      (ptr - p.base) / p.slotSize = i := by
  rcases p.allocate_eq_some h with ⟨i, hfind, hptr, _⟩
  rcases p.findSlot_spec hfind with ⟨_, husable, _, _⟩
  have hoff : i * p.slotSize < p.variant.size := p.slot_offset_lt hs husable
  have hmod : ptr % p.variant.size = i * p.slotSize := by
    rcases hb with ⟨c, hc⟩
    rw [hptr, hc, Nat.mul_add_mod, Nat.mod_eq_of_lt hoff]
  have hmask : ptr - ptr % p.variant.size = p.base := by
    rw [hmod, hptr, Nat.add_sub_cancel]
  have hand : ptr &&& (p.variant.size - 1) = ptr % p.variant.size := by
    rcases PageVariant.size_eq_two_pow p.variant with ⟨k, hk⟩
    rw [hk, Nat.and_pow_two_sub_one_eq_mod]
  refine ⟨by rw [hand]; exact hmask, hmask, ?_, i, hfind, hptr, ?_⟩
  · cases p.variant <;> decide
  · rw [hptr, Nat.add_sub_cancel_left, Nat.mul_div_cancel _ hs]

/-- Concrete instantiation of `pointer_provenance`: a fresh small page at
base 4096 with 1024-byte slots serves slot 0 at address 4096. -/
theorem pointer_provenance_witness :
    0 < (1024 : Nat) ∧ PageVariant.small.size ∣ 4096 ∧
    (Page.mk .small 4096 1024 0).allocate 8 =
      some (4096, Page.mk .small 4096 1024 1) ∧
    (4096 - (4096 &&& (PageVariant.small.size - 1)) = 4096 ∧
     4096 - 4096 % PageVariant.small.size = 4096 ∧
     0 < headerOffset PageVariant.small ∧
     ∃ i, (Page.mk .small 4096 1024 0).findSlot 8 = some i ∧
       4096 = 4096 + i * 1024 ∧ (4096 - 4096) / 1024 = i) := by
  refine ⟨by decide, by decide, by decide, ?_⟩
  exact pointer_provenance (Page.mk .small 4096 1024 0) 8 4096
    (Page.mk .small 4096 1024 1) (by decide) (by decide) (by decide)

/-- The predicate `Page.isFull` spelled as a quantified statement over the
bitmaps. -/
theorem Page.isFull_iff (p : Page) :
    p.isFull = true ↔
      ∀ i < p.numSlots, p.usableBit i = true → p.occupied.testBit i = true := by
  unfold Page.isFull
  rw [List.all_eq_true]
  constructor
  · intro h i hi hu
    have := h i (List.mem_range.mpr hi)
    simpa [hu] using this
  · intro h i hi
    rcases hb : p.usableBit i with _ | _
    · simp [hb]
    · simp [hb, h i (List.mem_range.mp hi) hb]

/-- C9: the page metadata keeps no redundant occupancy counter.  The
population is derived from the occupancy bitmap on demand and always agrees
with the derived predicates: `is_empty` holds exactly when the population is
zero, `is_full` exactly when the population equals the number of usable
slots; and population, `is_empty` and `is_full` are functions of the
occupancy bitmap and the class geometry alone, so no separately maintained
count exists that could disagree with the bitmap. -/
theorem no_redundant_counter (p : Page)
    (hbound : p.occupied < 2 ^ p.numSlots)
    (hsub : ∀ i < p.numSlots, p.occupied.testBit i = true → p.usableBit i = true) :
    (p.isEmpty = true ↔ p.population = 0) ∧
    (p.isFull = true ↔ p.population = p.usableCount) ∧
    (∀ q : Page, q.variant = p.variant → q.slotSize = p.slotSize →
      q.occupied = p.occupied →
      q.population = p.population ∧ q.isEmpty = p.isEmpty ∧ q.isFull = p.isFull) := by
  have hAB : ((Finset.range p.numSlots).filter fun i => p.occupied.testBit i = true) ⊆
      ((Finset.range p.numSlots).filter fun i => p.usableBit i = true) := by
    intro x hx
    rw [Finset.mem_filter] at hx ⊢
    exact ⟨hx.1, hsub x (Finset.mem_range.mp hx.1) hx.2⟩
  refine ⟨?_, ?_, ?_⟩
  · constructor
    · intro h
      have h0 : p.occupied = 0 := decide_eq_true_eq.mp h
      unfold Page.population
      rw [h0]
      simp [Nat.zero_testBit]
    · intro h
      have hempty := Finset.card_eq_zero.mp h
      rw [Finset.filter_eq_empty_iff] at hempty
      have h0 : p.occupied = 0 := by
        apply Nat.eq_of_testBit_eq
        intro i
        rw [Nat.zero_testBit]
        by_cases hi : i < p.numSlots
        · by_contra hne
          exact hempty (Finset.mem_range.mpr hi)
            (by simpa using Bool.of_not_eq_false hne)
        · exact Nat.testBit_lt_two_pow
            (lt_of_lt_of_le hbound (Nat.pow_le_pow_right (by omega) (by omega)))
      exact decide_eq_true_eq.mpr h0
  · rw [Page.isFull_iff]
    constructor
    · intro h
      have hBA : ((Finset.range p.numSlots).filter fun i => p.usableBit i = true) ⊆
          ((Finset.range p.numSlots).filter fun i => p.occupied.testBit i = true) := by
        intro x hx
        rw [Finset.mem_filter] at hx ⊢
        exact ⟨hx.1, h x (Finset.mem_range.mp hx.1) hx.2⟩
      exact congrArg Finset.card (Finset.Subset.antisymm hAB hBA)
    · intro h
      have heq := Finset.eq_of_subset_of_card_le hAB (le_of_eq h.symm)
      intro i hi hu
      have : i ∈ (Finset.range p.numSlots).filter fun i => p.usableBit i = true :=
        Finset.mem_filter.mpr ⟨Finset.mem_range.mpr hi, hu⟩
      rw [← heq] at this
      exact (Finset.mem_filter.mp this).2
  · intro q h1 h2 h3
    cases p
    cases q
    simp only at h1 h2 h3
    subst h1
    subst h2
    subst h3
    exact ⟨rfl, rfl, rfl⟩

/-- Concrete instantiation of `no_redundant_counter`: a small page with
1024-byte slots and three of its three usable slots allocated. -/
theorem no_redundant_counter_witness :
    (Page.mk .small 4096 1024 7).occupied < 2 ^ (Page.mk .small 4096 1024 7).numSlots ∧
    ((Page.mk .small 4096 1024 7).isFull = true ↔
      (Page.mk .small 4096 1024 7).population = (Page.mk .small 4096 1024 7).usableCount) := by
  refine ⟨by decide, ?_⟩
  exact (no_redundant_counter (Page.mk .small 4096 1024 7) (by decide)
    (by decide)).2.1

/-- Modelled from the spec: the state of one size-class allocator
(`SCAllocator` in `sc.rs`): a fixed `slot_size` and the three intrusive page
lists.  `usedPages` models the partially-occupied list. -/
structure SCAllocator where
  slotSize : Nat
  emptyPages : List Page
  usedPages : List Page
  fullPages : List Page
deriving DecidableEq

/-- All pages owned by a size-class allocator, across its three lists. -/
def SCAllocator.pages (sc : SCAllocator) : List Page :=
  sc.emptyPages ++ sc.usedPages ++ sc.fullPages

/-- Modelled from the spec: on any (de)allocation the touched page is
reinserted at the head of the list matching its new occupancy
classification (spec section 4.2, list transitions). -/
def SCAllocator.insertPage (sc : SCAllocator) (p : Page) : SCAllocator :=
  if p.isEmpty then { sc with emptyPages := p :: sc.emptyPages }
  else if p.isFull then { sc with fullPages := p :: sc.fullPages }
  else { sc with usedPages := p :: sc.usedPages }

/-- Modelled from the spec: last-resort allocation from the head of the
empty-page reserve list; if it too is exhausted the class is out of
memory. -/
def SCAllocator.allocateFromEmptyList (sc : SCAllocator) (l : Layout) :
    Except AllocationError Nat × SCAllocator :=
  match sc.emptyPages with
  | [] => (.error .outOfMemory, sc)
  | p :: rest =>
    match p.allocate l.align with
    | none => (.error .outOfMemory, sc)
    | some (ptr, p') => (.ok ptr, SCAllocator.insertPage { sc with emptyPages := rest } p')

/-- Modelled from the spec: size-class allocate.  Search order is the
partial-list head, then the empty-list head; if both are exhausted return
`OutOfMemory` so the caller can refill.  On success the serving page is
relocated to the list matching its new occupancy. -/
def SCAllocator.allocate (sc : SCAllocator) (l : Layout) :
    Except AllocationError Nat × SCAllocator :=
  match sc.usedPages with
  | [] => sc.allocateFromEmptyList l
  | p :: rest =>
    match p.allocate l.align with
    | none => sc.allocateFromEmptyList l
    | some (ptr, p') => (.ok ptr, SCAllocator.insertPage { sc with usedPages := rest } p')

/-- Modelled from the spec: whether the page owns the pointer, i.e. masking
the pointer down to the page-size boundary yields the page's base. -/
def Page.owns (p : Page) (ptr : Nat) : Bool :=
  decide (ptr - ptr % p.variant.size = p.base)

/-- Remove the page owning `ptr` from a list, returning it together with
the remaining pages. -/
def removeOwner (ps : List Page) (ptr : Nat) : Option (Page × List Page) :=
  match ps with
  | [] => none
  | p :: rest =>
    if p.owns ptr then some (p, rest)
    else
      match removeOwner rest ptr with
      | some (q, rest') => some (q, p :: rest')
      | none => none

/-- Modelled from the spec: size-class deallocate.  Compute the owning page
via pointer masking, call the page's deallocate, and reclassify the page
between the lists as needed; a pointer owned by no page of the class is
reported as an error. -/
def SCAllocator.deallocate (sc : SCAllocator) (ptr : Nat) :
    Except AllocationError Unit × SCAllocator :=
  match removeOwner sc.fullPages ptr with
  | some (q, rest) =>
    match q.deallocate ptr with
    | .ok q' => (.ok (), SCAllocator.insertPage { sc with fullPages := rest } q')
    | .error e => (.error e, sc)
  | none =>
    match removeOwner sc.usedPages ptr with
    | some (q, rest) =>
      match q.deallocate ptr with
      | .ok q' => (.ok (), SCAllocator.insertPage { sc with usedPages := rest } q')
      | .error e => (.error e, sc)
    | none =>
      match removeOwner sc.emptyPages ptr with
      | some (q, rest) =>
        match q.deallocate ptr with
        | .ok q' => (.ok (), SCAllocator.insertPage { sc with emptyPages := rest } q')
        | .error e => (.error e, sc)
      | none => (.error .invalidLayout, sc)

/-- Modelled from the spec: refill — the caller hands in an initialized
page, inserted at the head of the empty list (spec section 4.2). -/
def SCAllocator.refill (sc : SCAllocator) (p : Page) : SCAllocator :=
  { sc with emptyPages := p :: sc.emptyPages }

/-- Occupancy classification invariant of the three lists: the empty list
holds exactly pages with zero allocated slots, the full list pages with
every usable slot allocated (and at least one), and the partial list the
rest (spec section 3, size-class lists). -/
def SCAllocator.classified (sc : SCAllocator) : Prop :=
  (∀ p ∈ sc.emptyPages, p.isEmpty = true) ∧
  (∀ p ∈ sc.usedPages, p.isEmpty = false ∧ p.isFull = false) ∧
  (∀ p ∈ sc.fullPages, p.isFull = true ∧ p.isEmpty = false)

/-- Well-formedness of a size-class allocator: the lists are correctly
classified and no page (identified by its base address) appears twice. -/
def SCAllocator.wf (sc : SCAllocator) : Prop :=
  sc.classified ∧ (sc.pages.map Page.base).Nodup

instance (sc : SCAllocator) : Decidable sc.classified := by
  unfold SCAllocator.classified
  infer_instance

instance (sc : SCAllocator) : Decidable sc.wf := by
  unfold SCAllocator.wf
  infer_instance

/-- Power-of-two test on a `Nat` (a `Layout`'s alignment is valid only when
it is a power of two). -/
def isPow2 (n : Nat) : Bool :=
  (List.range (n + 1)).any fun k => decide (n = 2 ^ k)

/-- Modelled from the spec: the fixed size-class schedule for small (4 KiB)
pages — a geometric/arithmetic schedule `8, 16, 24, 32, 48, ...` up to
approximately half the small page size (spec section 3, Zone). -/
def smallClasses : List Nat :=
  [8, 16, 24, 32, 48, 64, 80, 96, 128, 192, 256, 512, 1024, 2048]

/-- Modelled from the spec: the parallel size-class schedule for large
(2 MiB) pages, up to near the large page size (spec section 3, Zone). -/
def largeClasses : List Nat :=
  [4096, 8192, 16384, 32768, 65536, 131072, 262144, 524288, 1048576]

/-- The full ascending size-class schedule of the zone. -/
def classes : List Nat := smallClasses ++ largeClasses

/-- The largest supported size class. -/
def maxClassSize : Nat := 1048576

/-- Modelled from the spec: class selection — the smallest class satisfying
both the size and the alignment (alignment above a class's natural
alignment promotes to a class whose slot size is a multiple of the
requested alignment; spec section 4.3). -/
def findClass (l : Layout) : Option Nat :=
  classes.find? fun c => decide (l.size ≤ c ∧ c % l.align = 0)

/-- Modelled from the spec: the zone allocator — a fixed table of
size-class allocators indexed by slot size (`zone.rs`). -/
structure ZoneAllocator where
  scas : Nat → SCAllocator

/-- Whether a layout is rejected outright: zero size, non-power-of-two
alignment, or size beyond the largest class (spec section 6). -/
def badLayout (l : Layout) : Prop :=
  l.size = 0 ∨ isPow2 l.align = false ∨ maxClassSize < l.size

instance (l : Layout) : Decidable (badLayout l) := by
  unfold badLayout
  infer_instance

/-- Modelled from the spec: zone allocate — reject invalid layouts, select
the class, dispatch to its size-class allocator, and write the updated
class back into the table (spec section 4.3). -/
def ZoneAllocator.allocate (z : ZoneAllocator) (l : Layout) :
    Except AllocationError Nat × ZoneAllocator :=
  if badLayout l then (.error .invalidLayout, z)
  else
    match findClass l with
    | none => (.error .invalidLayout, z)
    | some c =>
      let r := (z.scas c).allocate l
      (r.1, ⟨fun x => if x = c then r.2 else z.scas x⟩)

/-- Modelled from the spec: zone deallocate — the class is re-derived from
the layout and the request dispatched to it (spec section 4.3); an
unsupported layout is reported as `InvalidLayout`. -/
def ZoneAllocator.deallocate (z : ZoneAllocator) (ptr : Nat) (l : Layout) :
    Except AllocationError Unit × ZoneAllocator :=
  if badLayout l then (.error .invalidLayout, z)
  else
    match findClass l with
    | none => (.error .invalidLayout, z)
    | some c =>
      let r := (z.scas c).deallocate ptr
      (r.1, ⟨fun x => if x = c then r.2 else z.scas x⟩)

/-- Modelled from the spec: zone refill — forwarded to the size-class
allocator selected by the layout, which inserts the page into its empty
list (spec sections 4.3 and 6). -/
def ZoneAllocator.refill (z : ZoneAllocator) (l : Layout) (pg : Page) :
    Except AllocationError Unit × ZoneAllocator :=
  if badLayout l then (.error .invalidLayout, z)
  else
    match findClass l with
    | none => (.error .invalidLayout, z)
    | some c =>
      (.ok (), ⟨fun x => if x = c then (z.scas c).refill pg else z.scas x⟩)

/-- An error result of a size-class allocate is always `OutOfMemory`, the
state is returned untouched, and both list heads were unable to serve. -/
theorem SCAllocator.allocateFromEmptyList_error {sc : SCAllocator} {l : Layout}
    {e : AllocationError} {sc' : SCAllocator}
    (h : sc.allocateFromEmptyList l = (.error e, sc')) :
    sc' = sc ∧ e = .outOfMemory ∧
      (sc.emptyPages = [] ∨
        ∃ q rest, sc.emptyPages = q :: rest ∧ q.allocate l.align = none) := by
  unfold SCAllocator.allocateFromEmptyList at h
  split at h
  next hE =>
    simp only [Prod.mk.injEq, Except.error.injEq] at h
    exact ⟨h.2.symm, h.1.symm, Or.inl hE⟩
  next q rest hE =>
    split at h
    next hA =>
      simp only [Prod.mk.injEq, Except.error.injEq] at h
      exact ⟨h.2.symm, h.1.symm, Or.inr ⟨q, rest, hE, hA⟩⟩
    next ptr p' hA =>
      simp only [Prod.mk.injEq] at h
      exact absurd h.1 (by simp)

/-- An error result of a size-class allocate is `OutOfMemory`, leaves the
state untouched, and records that the partial-list head (when present)
could not serve the request. -/
theorem SCAllocator.allocate_error {sc : SCAllocator} {l : Layout}
    {e : AllocationError} {sc' : SCAllocator}
    (h : sc.allocate l = (.error e, sc')) :
    sc' = sc ∧ e = .outOfMemory ∧
      (sc.usedPages = [] ∨
        ∃ p rest, sc.usedPages = p :: rest ∧ p.allocate l.align = none) ∧
      (sc.emptyPages = [] ∨
        ∃ q rest, sc.emptyPages = q :: rest ∧ q.allocate l.align = none) := by
  unfold SCAllocator.allocate at h
  split at h
  next hU =>
    rcases SCAllocator.allocateFromEmptyList_error h with ⟨h1, h2, h3⟩
    exact ⟨h1, h2, Or.inl hU, h3⟩
  next p rest hU =>
    split at h
    next hA =>
      rcases SCAllocator.allocateFromEmptyList_error h with ⟨h1, h2, h3⟩
      exact ⟨h1, h2, Or.inr ⟨p, rest, hU, hA⟩, h3⟩
    next ptr p' hA =>
      simp only [Prod.mk.injEq] at h
      exact absurd h.1 (by simp)

/-- A successful size-class allocate serves from a page of the class, at a
slot chosen by the page's bitmap scan. -/
theorem SCAllocator.allocateFromEmptyList_ok_exists {sc : SCAllocator}
    {l : Layout} {ptr : Nat} {sc' : SCAllocator}
    (h' : sc.allocateFromEmptyList l = (.ok ptr, sc')) :
    ∃ pg i, pg ∈ sc.pages ∧ pg.findSlot l.align = some i ∧
      ptr = pg.base + i * pg.slotSize := by
  unfold SCAllocator.allocateFromEmptyList at h'
  split at h'
  next => simp at h'
  next q rest hE =>
    split at h'
    next => simp at h'
    next ptr' p' hA =>
      simp only [Prod.mk.injEq, Except.ok.injEq] at h'
      rcases Page.allocate_eq_some hA with ⟨i, hfind, hp, _⟩
      exact ⟨q, i, by simp [SCAllocator.pages, hE], hfind, h'.1 ▸ hp⟩

/-- A successful size-class allocate serves from a page of the class, at a
slot chosen by the page's bitmap scan. -/
theorem SCAllocator.allocate_ok_exists {sc : SCAllocator} {l : Layout}
    {ptr : Nat} {sc' : SCAllocator}
    (h : sc.allocate l = (.ok ptr, sc')) :
    ∃ pg i, pg ∈ sc.pages ∧ pg.findSlot l.align = some i ∧
      ptr = pg.base + i * pg.slotSize := by
  unfold SCAllocator.allocate at h
  split at h
  next => exact SCAllocator.allocateFromEmptyList_ok_exists h
  next p rest hU =>
    split at h
    next => exact SCAllocator.allocateFromEmptyList_ok_exists h
    next ptr' p' hA =>
      simp only [Prod.mk.injEq, Except.ok.injEq] at h
      rcases Page.allocate_eq_some hA with ⟨i, hfind, hp, _⟩
      exact ⟨p, i, by simp [SCAllocator.pages, hU], hfind, h.1 ▸ hp⟩

/-- A full page's bitmap scan never finds a slot. -/
theorem Page.findSlot_none_of_isFull {p : Page} {align : Nat}
    (h : p.isFull = true) : p.findSlot align = none := by
  unfold Page.findSlot
  rw [List.find?_eq_none]
  intro i hi
  have := (Page.isFull_iff p).mp h i (List.mem_range.mp hi)
  rcases hb : p.usableBit i with _ | _
  · simp [hb]
  · simp [hb, this hb]

/-- Unpack a successful `Page.deallocate`: the recovered slot's bit was set
and is cleared; nothing else changes. -/
theorem Page.deallocate_ok {p : Page} {ptr : Nat} {p' : Page}
    (h : p.deallocate ptr = .ok p') :
    p' = { p with occupied := p.occupied ^^^ (1 <<< ((ptr - p.base) / p.slotSize)) } ∧
    p.occupied.testBit ((ptr - p.base) / p.slotSize) = true := by
  unfold Page.deallocate at h
  split at h
  next hbit =>
    simp only [Except.ok.injEq] at h
    exact ⟨h.symm, hbit⟩
  next => simp at h

/-- Reinsertion places the page at the head of one of the three lists, so
the owned pages are a permutation of the old ones plus the new page. -/
theorem SCAllocator.insertPage_pages_perm (sc : SCAllocator) (q : Page) :
    (sc.insertPage q).pages.Perm (q :: sc.pages) := by
  unfold SCAllocator.insertPage SCAllocator.pages
  split
  · exact List.Perm.refl _
  · split
    · exact List.perm_middle
    · exact List.Perm.append_right _ List.perm_middle

/-- Reinsertion routes the page by its derived occupancy predicates, so it
always lands in the list matching its classification. -/
theorem SCAllocator.insertPage_classified {sc : SCAllocator} (q : Page)
    (h : sc.classified) : (sc.insertPage q).classified := by
  obtain ⟨h1, h2, h3⟩ := h
  unfold SCAllocator.insertPage
  split
  next hq =>
    refine ⟨fun p hp => ?_, h2, h3⟩
    rcases List.mem_cons.mp hp with h | h
    · exact h ▸ hq
    · exact h1 p h
  next hq =>
    have hqe : q.isEmpty = false := Bool.eq_false_iff.mpr hq
    split
    next hf =>
      refine ⟨h1, h2, fun p hp => ?_⟩
      rcases List.mem_cons.mp hp with h | h
      · exact h ▸ ⟨hf, hqe⟩
      · exact h3 p h
    next hf =>
      have hqf : q.isFull = false := Bool.eq_false_iff.mpr hf
      refine ⟨h1, fun p hp => ?_, h3⟩
      rcases List.mem_cons.mp hp with h | h
      · exact h ▸ ⟨hqe, hqf⟩
      · exact h2 p h

/-- Removing the owner of a pointer from a list yields a permutation. -/
theorem removeOwner_perm {ps : List Page} {ptr : Nat} {q : Page}
    {rest : List Page} (h : removeOwner ps ptr = some (q, rest)) :
    ps.Perm (q :: rest) := by
  induction ps generalizing q rest with
  | nil => simp [removeOwner] at h
  | cons p ps ih =>
    unfold removeOwner at h
    split at h
    next ho =>
      simp only [Option.some.injEq, Prod.mk.injEq] at h
      rw [← h.1, ← h.2]
    next ho =>
      split at h
      next q' rest' hr =>
        simp only [Option.some.injEq, Prod.mk.injEq] at h
        rw [← h.2, ← h.1]
        exact (List.Perm.cons p (ih hr)).trans (List.Perm.swap _ _ _)
      next => simp at h

/-- If no page of a list owns the pointer, the owner search fails. -/
theorem removeOwner_eq_none {ps : List Page} {ptr : Nat}
    (h : ∀ p ∈ ps, p.owns ptr = false) : removeOwner ps ptr = none := by
  induction ps with
  | nil => rfl
  | cons p ps ih =>
    unfold removeOwner
    rw [ih fun x hx => h x (List.mem_cons_of_mem p hx)]
    simp [h p (List.mem_cons_self p ps)]

/-- Reinserting a page whose base equals that of a page removed from the
allocator preserves well-formedness. -/
theorem SCAllocator.wf_insert {sc mid : SCAllocator} (q : Page) {q' : Page}
    (hbase : q'.base = q.base)
    (hperm : sc.pages.Perm (q :: mid.pages))
    (hcl : mid.classified) (hwf : sc.wf) : (mid.insertPage q').wf := by
  refine ⟨SCAllocator.insertPage_classified q' hcl, ?_⟩
  have h1 := (SCAllocator.insertPage_pages_perm mid q').map Page.base
  have h2 := hperm.map Page.base
  rw [List.map_cons] at h1 h2
  rw [hbase] at h1
  exact ((h1.trans h2.symm).nodup_iff).mpr hwf.2

/-- Allocating from the empty-list head preserves well-formedness. -/
theorem SCAllocator.allocateFromEmptyList_wf {sc : SCAllocator} {l : Layout}
    (hwf : sc.wf) : ((sc.allocateFromEmptyList l).2).wf := by
  unfold SCAllocator.allocateFromEmptyList
  split
  next => exact hwf
  next q rest hE =>
    split
    next => exact hwf
    next ptr p' hA =>
      rcases Page.allocate_eq_some hA with ⟨i, _, _, hp'⟩
      refine SCAllocator.wf_insert q (hp' ▸ rfl) ?_ ?_ hwf
      · unfold SCAllocator.pages
        rw [hE]
        exact List.Perm.refl _
      · obtain ⟨h1, h2, h3⟩ := hwf.1
        exact ⟨fun x hx => h1 x (by rw [hE]; exact List.mem_cons_of_mem q hx),
          h2, h3⟩

/-- C6 (part, allocate): a size-class allocate preserves the three-list
well-formedness. -/
theorem SCAllocator.allocate_wf {sc : SCAllocator} {l : Layout}
    (hwf : sc.wf) : ((sc.allocate l).2).wf := by
  unfold SCAllocator.allocate
  split
  next => exact SCAllocator.allocateFromEmptyList_wf hwf
  next p rest hU =>
    split
    next => exact SCAllocator.allocateFromEmptyList_wf hwf
    next ptr p' hA =>
      rcases Page.allocate_eq_some hA with ⟨i, _, _, hp'⟩
      refine SCAllocator.wf_insert p (hp' ▸ rfl) ?_ ?_ hwf
      · unfold SCAllocator.pages
        rw [hU]
        exact List.Perm.append_right _ List.perm_middle
      · obtain ⟨h1, h2, h3⟩ := hwf.1
        exact ⟨h1, fun x hx => h2 x (by rw [hU]; exact List.mem_cons_of_mem p hx),
          h3⟩

/-- C6 (part, deallocate): a size-class deallocate preserves the three-list
well-formedness. -/
theorem SCAllocator.deallocate_wf {sc : SCAllocator} {ptr : Nat}
    (hwf : sc.wf) : ((sc.deallocate ptr).2).wf := by
  obtain ⟨⟨h1, h2, h3⟩, hnd⟩ := hwf
  unfold SCAllocator.deallocate
  split
  next q rest hR =>
    split
    next q' hD =>
      refine SCAllocator.wf_insert q ((Page.deallocate_ok hD).1 ▸ rfl)
        ?_ ?_ ⟨⟨h1, h2, h3⟩, hnd⟩
      · exact (List.Perm.append_left _ (removeOwner_perm hR)).trans List.perm_middle
      · exact ⟨h1, h2,
          fun x hx => h3 x ((removeOwner_perm hR).symm.subset (List.mem_cons_of_mem q hx))⟩
    next => exact ⟨⟨h1, h2, h3⟩, hnd⟩
  next hR1 =>
    split
    next q rest hR =>
      split
      next q' hD =>
        refine SCAllocator.wf_insert q ((Page.deallocate_ok hD).1 ▸ rfl)
          ?_ ?_ ⟨⟨h1, h2, h3⟩, hnd⟩
        · show (sc.emptyPages ++ sc.usedPages ++ sc.fullPages).Perm
            (q :: (sc.emptyPages ++ rest ++ sc.fullPages))
          exact ((List.Perm.append_left _ (removeOwner_perm hR)).append_right _).trans
            (List.perm_middle.append_right _)
        · exact ⟨h1,
            fun x hx => h2 x ((removeOwner_perm hR).symm.subset (List.mem_cons_of_mem q hx)),
            h3⟩
      next => exact ⟨⟨h1, h2, h3⟩, hnd⟩
    next hR2 =>
      split
      next q rest hR =>
        split
        next q' hD =>
          refine SCAllocator.wf_insert q ((Page.deallocate_ok hD).1 ▸ rfl)
            ?_ ?_ ⟨⟨h1, h2, h3⟩, hnd⟩
          · show (sc.emptyPages ++ sc.usedPages ++ sc.fullPages).Perm
              (q :: (rest ++ sc.usedPages ++ sc.fullPages))
            exact List.Perm.append_right _
              (List.Perm.append_right _ (removeOwner_perm hR))
          · exact ⟨fun x hx => h1 x ((removeOwner_perm hR).symm.subset (List.mem_cons_of_mem q hx)),
              h2, h3⟩
        next => exact ⟨⟨h1, h2, h3⟩, hnd⟩
      next => exact ⟨⟨h1, h2, h3⟩, hnd⟩

/-- C6 (part, refill): refilling with a fresh empty page preserves the
three-list well-formedness. -/
theorem SCAllocator.refill_wf {sc : SCAllocator} {pg : Page} (hwf : sc.wf)
    (hpg : pg.isEmpty = true) (hfresh : pg.base ∉ sc.pages.map Page.base) :
    (sc.refill pg).wf := by
  obtain ⟨⟨h1, h2, h3⟩, hnd⟩ := hwf
  refine ⟨⟨fun x hx => ?_, h2, h3⟩, ?_⟩
  · rcases List.mem_cons.mp hx with h | h
    · exact h ▸ hpg
    · exact h1 x h
  · show (List.map Page.base (pg :: sc.pages)).Nodup
    rw [List.map_cons]
    exact List.nodup_cons.mpr ⟨hfresh, hnd⟩

/-- In a well-formed size-class allocator, list membership characterizes
page occupancy, and the three lists are mutually exclusive. -/
theorem SCAllocator.wf_membership {sc : SCAllocator} (hwf : sc.wf)
    (q : Page) (hq : q ∈ sc.pages) :
    (q ∈ sc.emptyPages ↔ q.isEmpty = true) ∧
    (q ∈ sc.fullPages ↔ (q.isFull = true ∧ q.isEmpty = false)) ∧
    (q ∈ sc.usedPages ↔ (q.isEmpty = false ∧ q.isFull = false)) ∧
    ¬(q ∈ sc.emptyPages ∧ q ∈ sc.usedPages) ∧
    ¬(q ∈ sc.emptyPages ∧ q ∈ sc.fullPages) ∧
    ¬(q ∈ sc.usedPages ∧ q ∈ sc.fullPages) := by
  obtain ⟨⟨h1, h2, h3⟩, _⟩ := hwf
  have hcases : q ∈ sc.emptyPages ∨ q ∈ sc.usedPages ∨ q ∈ sc.fullPages := by
    simpa [SCAllocator.pages, List.mem_append, or_assoc] using hq
  refine ⟨⟨fun h => h1 q h, fun he => ?_⟩,
    ⟨fun h => h3 q h, fun hf => ?_⟩,
    ⟨fun h => h2 q h, fun hu => ?_⟩, ?_, ?_, ?_⟩
  · rcases hcases with h | h | h
    · exact h
    · rw [(h2 q h).1] at he
      exact Bool.noConfusion he
    · rw [(h3 q h).2] at he
      exact Bool.noConfusion he
  · rcases hcases with h | h | h
    · rw [h1 q h] at hf
      exact Bool.noConfusion hf.2
    · rw [(h2 q h).2] at hf
      exact Bool.noConfusion hf.1
    · exact h
  · rcases hcases with h | h | h
    · rw [h1 q h] at hu
      exact Bool.noConfusion hu.1
    · exact h
    · rw [(h3 q h).1] at hu
      exact Bool.noConfusion hu.2
  · rintro ⟨ha, hb⟩
    have := h1 q ha
    rw [(h2 q hb).1] at this
    exact Bool.noConfusion this
  · rintro ⟨ha, hb⟩
    have := h1 q ha
    rw [(h3 q hb).2] at this
    exact Bool.noConfusion this
  · rintro ⟨ha, hb⟩
    have := (h2 q ha).2
    rw [(h3 q hb).1] at this
    exact Bool.noConfusion this

/-- C6: after every size-class allocate, deallocate, or refill, the
three-list well-formedness is preserved — every owned page (identified by
its unique base) sits in a list, and, in any well-formed state, its list is
exactly the one matching its occupancy (empty list iff zero slots
allocated, full list iff every usable slot allocated, partial list
otherwise), the three lists being mutually exclusive. -/
theorem list_classification_invariant (sc : SCAllocator) (l : Layout)
    (ptr : Nat) (pg : Page) (hwf : sc.wf) (hpg : pg.isEmpty = true)
    (hfresh : pg.base ∉ sc.pages.map Page.base) :
    ((sc.allocate l).2).wf ∧ ((sc.deallocate ptr).2).wf ∧ (sc.refill pg).wf ∧
    (∀ sc' : SCAllocator, sc'.wf → ∀ q ∈ sc'.pages,
      (q ∈ sc'.emptyPages ↔ q.isEmpty = true) ∧
      (q ∈ sc'.fullPages ↔ (q.isFull = true ∧ q.isEmpty = false)) ∧
      (q ∈ sc'.usedPages ↔ (q.isEmpty = false ∧ q.isFull = false)) ∧
      ¬(q ∈ sc'.emptyPages ∧ q ∈ sc'.usedPages) ∧
      ¬(q ∈ sc'.emptyPages ∧ q ∈ sc'.fullPages) ∧
      ¬(q ∈ sc'.usedPages ∧ q ∈ sc'.fullPages)) :=
  ⟨SCAllocator.allocate_wf hwf, SCAllocator.deallocate_wf hwf,
    SCAllocator.refill_wf hwf hpg hfresh,
    fun _ hwf' q hq => SCAllocator.wf_membership hwf' q hq⟩

/-- Size-class allocator used to instantiate the list-classification
invariant: one empty, one partially used and one full small page with
1024-byte slots. -/
def scC6 : SCAllocator :=
  ⟨1024, [Page.mk .small 8192 1024 0], [Page.mk .small 12288 1024 1],
    [Page.mk .small 16384 1024 7]⟩

/-- Concrete instantiation of `list_classification_invariant` on `scC6`:
allocating 512 bytes, deallocating the object at 12288, and refilling with
a fresh empty page each preserve well-formedness. -/
theorem list_classification_invariant_witness :
    ((scC6.allocate (Layout.mk 512 8)).2).wf ∧
    ((scC6.deallocate 12288).2).wf ∧
    (scC6.refill (Page.mk .small 20480 1024 0)).wf := by
  have h := list_classification_invariant scC6 (Layout.mk 512 8) 12288
    (Page.mk .small 20480 1024 0) ⟨by decide, by decide⟩ (by decide) (by decide)
  exact ⟨h.1, h.2.1, h.2.2.1⟩

/-- Soundness of the power-of-two test. -/
theorem isPow2_spec {n : Nat} (h : isPow2 n = true) : ∃ k, n = 2 ^ k := by
  unfold isPow2 at h
  rw [List.any_eq_true] at h
  rcases h with ⟨k, _, hk⟩
  exact ⟨k, decide_eq_true_eq.mp hk⟩

/-- A power of two below the largest class divides the largest class. -/
theorem pow2_dvd_maxClass {n : Nat} (h : isPow2 n = true)
    (hle : n ≤ maxClassSize) : n ∣ 1048576 := by
  rcases isPow2_spec h with ⟨k, hk⟩
  subst hk
  have hmax : maxClassSize = 2 ^ 20 := by decide
  rw [hmax] at hle
  have hk20 : k ≤ 20 := (Nat.pow_le_pow_iff_right (by omega)).mp hle
  have hdvd : (2 : Nat) ^ k ∣ 2 ^ 20 := Nat.pow_dvd_pow 2 hk20
  have h20 : (2 : Nat) ^ 20 = 1048576 := by decide
  rw [h20] at hdvd
  exact hdvd

/-- For a layout that is not rejected outright and whose alignment is in
range, class selection succeeds. -/
theorem findClass_isSome {l : Layout} (hnb : ¬ badLayout l)
    (halign : l.align ≤ maxClassSize) : findClass l ≠ none := by
  intro hnone
  unfold findClass at hnone
  rw [List.find?_eq_none] at hnone
  have hmem : 1048576 ∈ classes := by decide
  apply hnone 1048576 hmem
  unfold badLayout at hnb
  push_neg at hnb
  rw [decide_eq_true_eq]
  have hp2 : isPow2 l.align = true := by
    cases hb : isPow2 l.align
    · exact absurd hb hnb.2.1
    · rfl
  refine ⟨?_, Nat.mod_eq_zero_of_dvd (pow2_dvd_maxClass hp2 halign)⟩
  have := hnb.2.2
  unfold maxClassSize at this
  omega

/-- A size-class allocator under full occupancy has an empty partial list. -/
theorem SCAllocator.usedPages_eq_nil {sc : SCAllocator}
    (hcl : sc.classified) (hfull : ∀ pg ∈ sc.pages, pg.isFull = true) :
    sc.usedPages = [] := by
  cases hu : sc.usedPages with
  | nil => rfl
  | cons p rest =>
    have hp : p ∈ sc.usedPages := by rw [hu]; exact List.mem_cons_self p rest
    have hmem : p ∈ sc.pages :=
      List.mem_append.mpr (Or.inl (List.mem_append.mpr (Or.inr hp)))
    have h1 := (hcl.2.1 p hp).2
    have h2 := hfull p hmem
    rw [h1] at h2
    exact Bool.noConfusion h2

/-- A full page cannot serve any allocation. -/
theorem Page.allocate_eq_none_of_isFull {p : Page} {align : Nat}
    (h : p.isFull = true) : p.allocate align = none := by
  unfold Page.allocate
  rw [Page.findSlot_none_of_isFull h]
  rfl

/-- When every page of a size class is full, its allocate reports
`OutOfMemory`. -/
theorem SCAllocator.allocate_oom_of_all_full {sc : SCAllocator} {l : Layout}
    (hcl : sc.classified) (hfull : ∀ pg ∈ sc.pages, pg.isFull = true) :
    (sc.allocate l).1 = .error .outOfMemory := by
  unfold SCAllocator.allocate
  rw [SCAllocator.usedPages_eq_nil hcl hfull]
  show (sc.allocateFromEmptyList l).1 = _
  unfold SCAllocator.allocateFromEmptyList
  cases hE : sc.emptyPages with
  | nil => rfl
  | cons q rest =>
    have hq : q ∈ sc.emptyPages := by rw [hE]; exact List.mem_cons_self q rest
    have hmem : q ∈ sc.pages :=
      List.mem_append.mpr (Or.inl (List.mem_append.mpr (Or.inl hq)))
    have hnone : q.allocate l.align = none :=
      Page.allocate_eq_none_of_isFull (hfull q hmem)
    simp [hnone]

/-- C4: `allocate` rejects a layout with `InvalidLayout` exactly when its
size is zero, its alignment is not a power of two, or its size exceeds the
largest supported class (for alignments within the supported range); when
every page of the chosen class is full it returns `OutOfMemory`; and
`OutOfMemory` and `InvalidLayout` are the only error values any operation
can return. -/
theorem allocate_error_characterization :
    (∀ e : AllocationError, e = .outOfMemory ∨ e = .invalidLayout) ∧
    (∀ (z : ZoneAllocator) (l : Layout), l.align ≤ maxClassSize →
      ((z.allocate l).1 = .error .invalidLayout ↔
        (l.size = 0 ∨ isPow2 l.align = false ∨ maxClassSize < l.size))) ∧
    (∀ (z : ZoneAllocator) (l : Layout) (c : Nat), ¬ badLayout l →
      findClass l = some c → (z.scas c).classified →
      (∀ pg ∈ (z.scas c).pages, pg.isFull = true) →
      (z.allocate l).1 = .error .outOfMemory) := by
  refine ⟨fun e => ?_, ?_, ?_⟩
  · cases e
    · exact Or.inl rfl
    · exact Or.inr rfl
  · intro z l halign
    by_cases hb : badLayout l
    · unfold ZoneAllocator.allocate
      rw [if_pos hb]
      exact iff_of_true rfl hb
    · unfold ZoneAllocator.allocate
      rw [if_neg hb]
      have hiff2 : ¬(l.size = 0 ∨ isPow2 l.align = false ∨ maxClassSize < l.size) := hb
      cases hfc : findClass l with
      | none => exact absurd hfc (findClass_isSome hb halign)
      | some c =>
        refine iff_of_false ?_ hiff2
        show ((z.scas c).allocate l).1 ≠ .error .invalidLayout
        cases hr : (z.scas c).allocate l with
        | mk r sc' =>
          cases r with
          | ok ptr => simp
          | error e =>
            rcases SCAllocator.allocate_error hr with ⟨_, he, _⟩
            subst he
            simp
  · intro z l c hnb hfc hcl hfull
    unfold ZoneAllocator.allocate
    rw [if_neg hnb, hfc]
    exact SCAllocator.allocate_oom_of_all_full hcl hfull

/-- Zone with no pages at all, used to exercise the `InvalidLayout` leg of
the error characterization. -/
def zoneBare : ZoneAllocator := ⟨fun c => ⟨c, [], [], []⟩⟩

/-- Zone whose every class holds exactly one completely full small page,
used to exercise the `OutOfMemory` leg of the error characterization. -/
def zoneFull : ZoneAllocator :=
  ⟨fun _ => ⟨1024, [], [], [Page.mk .small 16384 1024 7]⟩⟩

/-- Concrete instantiation of `allocate_error_characterization`: a
zero-size request is rejected as `InvalidLayout`, and a request whose
chosen class is fully occupied reports `OutOfMemory`. -/
theorem allocate_error_characterization_witness :
    (zoneBare.allocate (Layout.mk 0 8)).1 = .error .invalidLayout ∧
    (zoneFull.allocate (Layout.mk 1000 8)).1 = .error .outOfMemory := by
  constructor
  · exact (allocate_error_characterization.2.1 zoneBare (Layout.mk 0 8)
      (by decide)).mpr (Or.inl rfl)
  · exact allocate_error_characterization.2.2 zoneFull (Layout.mk 1000 8) 1024
      (by decide) (by decide) (by decide) (by decide)

/-- C7: every pointer returned by a successful zone `allocate(size, align)`
on a zone whose pages sit on non-null frames satisfies
`ptr mod align = 0` and is non-null. -/
theorem alignment_and_nonnull (z : ZoneAllocator) (l : Layout) (ptr : Nat)
    (hbase : ∀ c ∈ classes, ∀ pg ∈ (z.scas c).pages, 0 < pg.base)
    (h : (z.allocate l).1 = .ok ptr) :
    ptr % l.align = 0 ∧ ptr ≠ 0 := by
  unfold ZoneAllocator.allocate at h
  by_cases hb : badLayout l
  · rw [if_pos hb] at h
    exact absurd h (by simp)
  · rw [if_neg hb] at h
    cases hfc : findClass l with
    | none =>
      rw [hfc] at h
      exact absurd h (by simp)
    | some c =>
      rw [hfc] at h
      have hpair : (z.scas c).allocate l = (.ok ptr, ((z.scas c).allocate l).2) := by
        rw [← h]
      rcases SCAllocator.allocate_ok_exists hpair with ⟨pg, i, hmem, hfind, hptr⟩
      rcases Page.findSlot_spec hfind with ⟨_, _, _, halign⟩
      have hpos := hbase c (List.mem_of_find?_eq_some hfc) pg hmem
      constructor
      · rw [hptr]
        exact halign
      · omega

/-- Zone whose every class holds one fresh small page at base 4096, used to
instantiate the alignment guarantee. -/
def zoneAligned : ZoneAllocator :=
  ⟨fun c => ⟨c, [Page.mk .small 4096 c 0], [], []⟩⟩

/-- Concrete instantiation of `alignment_and_nonnull`: requesting 512 bytes
aligned to 8 from `zoneAligned` yields the 8-aligned non-null pointer
4096. -/
theorem alignment_and_nonnull_witness : (4096 : Nat) % 8 = 0 ∧ (4096 : Nat) ≠ 0 :=
  alignment_and_nonnull zoneAligned (Layout.mk 512 8) 4096 (by decide) rfl

/-- Unfolding of zone allocate once the class is selected. -/
theorem ZoneAllocator.allocate_eq {z : ZoneAllocator} {l : Layout} {c : Nat}
    (hb : ¬ badLayout l) (hfc : findClass l = some c) :
    z.allocate l = (((z.scas c).allocate l).1,
      ⟨fun x => if x = c then ((z.scas c).allocate l).2 else z.scas x⟩) := by
  unfold ZoneAllocator.allocate
  rw [if_neg hb, hfc]

/-- Unfolding of zone refill once the class is selected. -/
theorem ZoneAllocator.refill_eq {z : ZoneAllocator} {l : Layout} {pg : Page}
    {c : Nat} (hb : ¬ badLayout l) (hfc : findClass l = some c) :
    z.refill l pg =
      (.ok (), ⟨fun x => if x = c then (z.scas c).refill pg else z.scas x⟩) := by
  unfold ZoneAllocator.refill
  rw [if_neg hb, hfc]

/-- Unfolding of zone deallocate once the class is selected. -/
theorem ZoneAllocator.deallocate_eq {z : ZoneAllocator} {ptr : Nat}
    {l : Layout} {c : Nat} (hb : ¬ badLayout l) (hfc : findClass l = some c) :
    z.deallocate ptr l = (((z.scas c).deallocate ptr).1,
      ⟨fun x => if x = c then ((z.scas c).deallocate ptr).2 else z.scas x⟩) := by
  unfold ZoneAllocator.deallocate
  rw [if_neg hb, hfc]

/-- A fresh, empty, suitably sized and aligned page always serves a
request. -/
theorem Page.allocate_fresh_isSome {pg : Page} {align : Nat}
    (hocc : pg.occupied = 0) (hs : 0 < pg.slotSize)
    (hd : pg.slotSize ≤ pg.dataSize) (ha : align ∣ pg.base) :
    ∃ ptr pg', pg.allocate align = some (ptr, pg') := by
  have hnum : 0 < pg.numSlots := by
    have hds : pg.dataSize ≤ pg.variant.size := Nat.sub_le _ _
    unfold Page.numSlots
    exact (Nat.le_div_iff_mul_le hs).mpr (by omega)
  have hpred : (pg.usableBit 0 && !(pg.occupied.testBit 0) &&
      decide ((pg.base + 0 * pg.slotSize) % align = 0)) = true := by
    rw [hocc]
    simp [Page.usableBit, Nat.zero_testBit, Nat.mod_eq_zero_of_dvd ha, hd]
  have hsome : (pg.findSlot align).isSome := by
    unfold Page.findSlot
    rw [List.find?_isSome]
    exact ⟨0, List.mem_range.mpr hnum, hpred⟩
  rcases ho : pg.findSlot align with _ | i
  · rw [ho] at hsome
    simp at hsome
  · refine ⟨pg.base + i * pg.slotSize,
      { pg with occupied := pg.occupied ||| (1 <<< i) }, ?_⟩
    unfold Page.allocate
    rw [ho]
    rfl

/-- The empty-list head serves when it can. -/
theorem SCAllocator.allocateFromEmptyList_serves_head {sc : SCAllocator}
    {l : Layout} {pg pg' : Page} {rest0 : List Page} {ptr : Nat}
    (hE : sc.emptyPages = pg :: rest0)
    (hsome : pg.allocate l.align = some (ptr, pg')) :
    (sc.allocateFromEmptyList l).1 = .ok ptr := by
  unfold SCAllocator.allocateFromEmptyList
  rw [hE]
  simp [hsome]

/-- If the partial list cannot serve but the empty-list head can, allocate
succeeds. -/
theorem SCAllocator.allocate_serves_empty_head {sc : SCAllocator}
    {l : Layout} {pg pg' : Page} {rest0 : List Page} {ptr : Nat}
    (hE : sc.emptyPages = pg :: rest0)
    (hsome : pg.allocate l.align = some (ptr, pg'))
    (hused : sc.usedPages = [] ∨
      ∃ p r, sc.usedPages = p :: r ∧ p.allocate l.align = none) :
    (sc.allocate l).1 = .ok ptr := by
  unfold SCAllocator.allocate
  rcases hused with h | ⟨p, r, h, hfail⟩
  · rw [h]
    exact SCAllocator.allocateFromEmptyList_serves_head hE hsome
  · rw [h]
    simp only [hfail]
    exact SCAllocator.allocateFromEmptyList_serves_head hE hsome

/-- C5: operations are atomic with respect to the caller — whenever zone
`allocate` returns an error (in particular `OutOfMemory`) the zone state it
returns is exactly the input state — and after an `OutOfMemory` return, a
`refill` of the layout's class with a fresh page followed by `allocate`
with the same layout succeeds. -/
theorem atomic_errors_and_oom_recovery :
    (∀ (z : ZoneAllocator) (l : Layout) (e : AllocationError),
      (z.allocate l).1 = .error e → (z.allocate l).2 = z) ∧
    (∀ (z : ZoneAllocator) (l : Layout) (pg : Page) (c : Nat),
      (z.allocate l).1 = .error .outOfMemory →
      findClass l = some c →
      pg.occupied = 0 → 0 < pg.slotSize → pg.slotSize ≤ pg.dataSize →
      l.align ∣ pg.base →
      ∃ ptr, (((z.refill l pg).2).allocate l).1 = .ok ptr) := by
  constructor
  · intro z l e h
    by_cases hb : badLayout l
    · have hz : z.allocate l = (.error .invalidLayout, z) := by
        unfold ZoneAllocator.allocate
        rw [if_pos hb]
      rw [hz]
    · cases hfc : findClass l with
      | none =>
        have hz : z.allocate l = (.error .invalidLayout, z) := by
          unfold ZoneAllocator.allocate
          rw [if_neg hb, hfc]
        rw [hz]
      | some c =>
        rw [ZoneAllocator.allocate_eq hb hfc] at h ⊢
        have hpair : (z.scas c).allocate l =
            (.error e, ((z.scas c).allocate l).2) := by
          rw [← h]
        have hsc := (SCAllocator.allocate_error hpair).1
        obtain ⟨f⟩ := z
        refine congrArg ZoneAllocator.mk (funext fun x => ?_)
        by_cases hx : x = c
        · subst hx
          rw [if_pos rfl]
          exact hsc
        · rw [if_neg hx]
  · intro z l pg c h1 hfc hocc hs hd ha
    have hb : ¬ badLayout l := by
      intro hb
      unfold ZoneAllocator.allocate at h1
      rw [if_pos hb] at h1
      simp at h1
    rw [ZoneAllocator.allocate_eq hb hfc] at h1
    have hpair : (z.scas c).allocate l =
        (.error .outOfMemory, ((z.scas c).allocate l).2) := by
      rw [← h1]
    obtain ⟨-, -, hused, -⟩ := SCAllocator.allocate_error hpair
    rw [ZoneAllocator.refill_eq hb hfc]
    rcases Page.allocate_fresh_isSome hocc hs hd ha with ⟨ptr, pg', hsome⟩
    refine ⟨ptr, ?_⟩
    rw [ZoneAllocator.allocate_eq hb hfc]
    show ((if c = c then (z.scas c).refill pg else z.scas c).allocate l).1 = _
    rw [if_pos rfl]
    exact SCAllocator.allocate_serves_empty_head rfl hsome hused

/-- Zone with no pages in any class, used to instantiate the OOM recovery
property. -/
def zoneDrained : ZoneAllocator := ⟨fun c => ⟨c, [], [], []⟩⟩

/-- Concrete instantiation of `atomic_errors_and_oom_recovery`: the drained
zone reports `OutOfMemory` unchanged for a 512-byte request, and after
refilling class 512 with a fresh page the same request succeeds. -/
theorem atomic_errors_and_oom_recovery_witness :
    (zoneDrained.allocate (Layout.mk 512 8)).2 = zoneDrained ∧
    ∃ ptr,
      (((zoneDrained.refill (Layout.mk 512 8) (Page.mk .small 4096 512 0)).2).allocate
        (Layout.mk 512 8)).1 = .ok ptr := by
  constructor
  · exact atomic_errors_and_oom_recovery.1 zoneDrained (Layout.mk 512 8)
      .outOfMemory rfl
  · exact atomic_errors_and_oom_recovery.2 zoneDrained (Layout.mk 512 8)
      (Page.mk .small 4096 512 0) 512 rfl rfl rfl (by decide) (by decide)
      (by decide)

/-- Zone with no pages, used to show a deallocation request can be
rejected with an error value. -/
def zoneQuiet : ZoneAllocator := ⟨fun c => ⟨c, [], [], []⟩⟩

/-- C10: at the public interface, deallocate is fallible rather than
undefined — for every pointer and layout it returns a
`Result<(), AllocationError>` value, i.e. either unit success or one of the
two `AllocationError` values — and there are requests (here a zero-size
layout) on which it actually reports an `AllocationError` to the caller
instead of aborting. -/
theorem deallocate_is_fallible :
    (∀ (z : ZoneAllocator) (ptr : Nat) (l : Layout),
      (z.deallocate ptr l).1 = .ok () ∨
      (z.deallocate ptr l).1 = .error .outOfMemory ∨
      (z.deallocate ptr l).1 = .error .invalidLayout) ∧
    (zoneQuiet.deallocate 4096 (Layout.mk 0 8)).1 = .error .invalidLayout := by
  constructor
  · intro z ptr l
    rcases h : (z.deallocate ptr l).1 with e | u
    · cases e
      · exact Or.inr (Or.inl rfl)
      · exact Or.inr (Or.inr rfl)
    · cases u
      exact Or.inl rfl
  · rfl

/-- On a fresh page, the bitmap scan picks the lowest-indexed slot 0. -/
theorem Page.findSlot_fresh {p : Page} {align : Nat}
    (hocc : p.occupied = 0) (hs : 0 < p.slotSize)
    (hd : p.slotSize ≤ p.dataSize) (hal : align ∣ p.base) :
    p.findSlot align = some 0 := by
  have hds : p.dataSize ≤ p.variant.size := Nat.sub_le _ _
  have hnum : 0 < p.numSlots := by
    unfold Page.numSlots
    exact (Nat.le_div_iff_mul_le hs).mpr (by omega)
  unfold Page.findSlot
  rcases hn : p.numSlots with _ | m
  · omega
  · rw [List.range_succ_eq_map]
    exact List.find?_cons_of_pos _
      (by simp [hocc, Page.usableBit, Nat.zero_testBit,
        Nat.mod_eq_zero_of_dvd hal, hd])

/-- Allocation on a fresh page hands out slot 0, i.e. the page base. -/
theorem Page.allocate_fresh {p : Page} {align : Nat}
    (hocc : p.occupied = 0) (hs : 0 < p.slotSize)
    (hd : p.slotSize ≤ p.dataSize) (hal : align ∣ p.base) :
    p.allocate align = some (p.base, { p with occupied := 1 }) := by
  unfold Page.allocate
  rw [Page.findSlot_fresh hocc hs hd hal]
  simp [hocc]

/-- Deallocating the base pointer of a page holding exactly slot 0 restores
the fresh page. -/
theorem Page.deallocate_fresh {p : Page} (hocc : p.occupied = 0) :
    Page.deallocate { p with occupied := 1 } p.base = .ok p := by
  unfold Page.deallocate
  show (if (1 : Nat).testBit ((p.base - p.base) / p.slotSize) = true then _ else _) = _
  rw [Nat.sub_self, Nat.zero_div]
  rw [if_pos (by decide)]
  have h0 : (1 ^^^ 1 <<< 0 : Nat) = 0 := by decide
  rw [h0, ← hocc]

/-- The refreshed page owns its own base pointer. -/
theorem Page.owns_base {p : Page} {occ : Nat} (hpb : p.variant.size ∣ p.base) :
    Page.owns { p with occupied := occ } p.base = true := by
  unfold Page.owns
  rw [decide_eq_true_eq]
  show p.base - p.base % p.variant.size = p.base
  rw [Nat.mod_eq_zero_of_dvd hpb, Nat.sub_zero]

/-- C8 at the size-class level: allocating from a previously empty head
page and then deallocating the returned pointer restores the allocator
state exactly, byte for byte. -/
theorem SCAllocator.roundtrip {sc : SCAllocator} {l : Layout} {p : Page}
    {rest : List Page}
    (hU : sc.usedPages = []) (hE : sc.emptyPages = p :: rest)
    (hocc : p.occupied = 0) (hs : 0 < p.slotSize)
    (hd : p.slotSize ≤ p.dataSize) (hal : l.align ∣ p.base)
    (hpb : p.variant.size ∣ p.base)
    (hvar : ∀ q ∈ sc.fullPages, q.variant = p.variant)
    (hnd : p.base ∉ sc.fullPages.map Page.base) :
    (sc.allocate l).1 = .ok p.base ∧
    ((sc.allocate l).2).deallocate p.base = (.ok (), sc) := by
  obtain ⟨ss, E, U, Fl⟩ := sc
  simp only at hU hE hvar hnd
  subst hU
  subst hE
  have hallocp := Page.allocate_fresh hocc hs hd hal
  have hAlloc : SCAllocator.allocate ⟨ss, p :: rest, [], Fl⟩ l =
      (.ok p.base, SCAllocator.insertPage ⟨ss, rest, [], Fl⟩
        { p with occupied := 1 }) := by
    show SCAllocator.allocateFromEmptyList ⟨ss, p :: rest, [], Fl⟩ l = _
    unfold SCAllocator.allocateFromEmptyList
    simp [hallocp]
  rw [hAlloc]
  refine ⟨rfl, ?_⟩
  have hpe : Page.isEmpty { p with occupied := 1 } = false := rfl
  have hFnone : removeOwner Fl p.base = none := by
    apply removeOwner_eq_none
    intro q hq
    unfold Page.owns
    rw [decide_eq_false_iff_not]
    rw [hvar q hq, Nat.mod_eq_zero_of_dvd hpb, Nat.sub_zero]
    intro hqb
    exact hnd (List.mem_map.mpr ⟨q, hq, hqb.symm⟩)
  have hinsert_back : SCAllocator.insertPage ⟨ss, rest, [], Fl⟩ p =
      ⟨ss, p :: rest, [], Fl⟩ := by
    unfold SCAllocator.insertPage
    rw [if_pos (by simp [Page.isEmpty, hocc])]
  cases hf : Page.isFull { p with occupied := 1 } with
  | true =>
    have hsc1 : SCAllocator.insertPage ⟨ss, rest, [], Fl⟩
        { p with occupied := 1 } = ⟨ss, rest, [], { p with occupied := 1 } :: Fl⟩ := by
      unfold SCAllocator.insertPage
      rw [hpe]
      simp [hf]
    rw [hsc1]
    have hro : removeOwner ({ p with occupied := 1 } :: Fl) p.base =
        some ({ p with occupied := 1 }, Fl) := by
      unfold removeOwner
      simp [Page.owns_base hpb]
    simp only [SCAllocator.deallocate, hro, Page.deallocate_fresh hocc,
      hinsert_back]
  | false =>
    have hsc1 : SCAllocator.insertPage ⟨ss, rest, [], Fl⟩
        { p with occupied := 1 } =
        ⟨ss, rest, [{ p with occupied := 1 }], Fl⟩ := by
      unfold SCAllocator.insertPage
      rw [hpe]
      simp [hf]
    rw [hsc1]
    have hro : removeOwner [{ p with occupied := 1 }] p.base =
        some ({ p with occupied := 1 }, []) := by
      unfold removeOwner
      simp [Page.owns_base hpb]
    simp only [SCAllocator.deallocate, hFnone, hro,
      Page.deallocate_fresh hocc, hinsert_back]

/-- C8: for a layout the allocator accepts, allocating and then
deallocating the returned pointer with the same layout returns the zone to
exactly the state before the allocate; in particular, when the serving page
was previously empty, the next allocation of the same class returns the
same pointer. -/
theorem roundtrip_restores_state (z : ZoneAllocator) (l : Layout) (c : Nat)
    (p : Page) (rest : List Page)
    (hb : ¬ badLayout l) (hfc : findClass l = some c)
    (hU : (z.scas c).usedPages = []) (hE : (z.scas c).emptyPages = p :: rest)
    (hocc : p.occupied = 0) (hs : 0 < p.slotSize)
    (hd : p.slotSize ≤ p.dataSize) (hal : l.align ∣ p.base)
    (hpb : p.variant.size ∣ p.base)
    (hvar : ∀ q ∈ (z.scas c).fullPages, q.variant = p.variant)
    (hnd : p.base ∉ (z.scas c).fullPages.map Page.base) :
    (z.allocate l).1 = .ok p.base ∧
    (((z.allocate l).2).deallocate p.base l).1 = .ok () ∧
    (((z.allocate l).2).deallocate p.base l).2 = z ∧
    (((((z.allocate l).2).deallocate p.base l).2).allocate l).1 = .ok p.base := by
  obtain ⟨hA, hD⟩ := SCAllocator.roundtrip hU hE hocc hs hd hal hpb hvar hnd
  have hA' : (z.allocate l).1 = .ok p.base := by
    rw [ZoneAllocator.allocate_eq hb hfc]
    exact hA
  have hz1 : (z.allocate l).2 =
      ⟨fun x => if x = c then ((z.scas c).allocate l).2 else z.scas x⟩ := by
    rw [ZoneAllocator.allocate_eq hb hfc]
  have hzd : ((z.allocate l).2).deallocate p.base l = (.ok (), z) := by
    rw [hz1, ZoneAllocator.deallocate_eq hb hfc]
    have hsc : (ZoneAllocator.mk
        fun x => if x = c then ((z.scas c).allocate l).2 else z.scas x).scas c
        = ((z.scas c).allocate l).2 := by simp
    rw [hsc, hD]
    refine congrArg _ ?_
    obtain ⟨f⟩ := z
    refine congrArg ZoneAllocator.mk (funext fun x => ?_)
    by_cases hx : x = c
    · subst hx
      rw [if_pos rfl]
    · rw [if_neg hx]
      simp [hx]
  refine ⟨hA', by rw [hzd], by rw [hzd], ?_⟩
  show ((((z.allocate l).2.deallocate p.base l).2).allocate l).1 = _
  rw [hzd]
  exact hA'

/-- Zone used to instantiate the round-trip property: each class holds a
single fresh page at base 4096. -/
def zoneRound : ZoneAllocator :=
  ⟨fun c => ⟨c, [Page.mk .small 4096 512 0], [], []⟩⟩

/-- Concrete instantiation of `roundtrip_restores_state`: allocate 512
bytes (served at 4096 from the previously empty page), deallocate, observe
the zone restored, and allocate again obtaining 4096 once more. -/
theorem roundtrip_restores_state_witness :
    (zoneRound.allocate (Layout.mk 512 8)).1 = .ok 4096 ∧
    (((zoneRound.allocate (Layout.mk 512 8)).2).deallocate 4096
      (Layout.mk 512 8)).1 = .ok () ∧
    (((zoneRound.allocate (Layout.mk 512 8)).2).deallocate 4096
      (Layout.mk 512 8)).2 = zoneRound ∧
    (((((zoneRound.allocate (Layout.mk 512 8)).2).deallocate 4096
      (Layout.mk 512 8)).2).allocate (Layout.mk 512 8)).1 = .ok 4096 :=
  roundtrip_restores_state zoneRound (Layout.mk 512 8) 512
    (Page.mk .small 4096 512 0) [] (by decide) (by decide) rfl rfl rfl
    (by decide) (by decide) (by decide) (by decide) (by decide) (by decide)
